import Mathlib

/-!
Verification of the `rle-decode-helper` crate (`src/lib.rs`).

The buffer (`Vec<T>` with `T : Copy`) is modelled as a `List α`; `usize`
values are modelled as `Nat` together with explicit comparisons against
`USIZE_MAX` at exactly the places where the source performs checked
arithmetic or where `Vec::reserve` checks the new capacity.  A Rust panic
is modelled as `Except.error (e, s)` where `e` is the error class named by
the spec's taxonomy and `s` is the buffer state at the moment of the
panic, so that "the buffer is left unchanged" is a statable property.
-/

/-- Maximum value representable in the Rust `usize` type (64-bit target). -/
def USIZE_MAX : Nat := 2 ^ 64 - 1

/-- The spec's error taxonomy (section 7).  Each constructor names one of the
panic paths of the source:
* `invalidLookbehind` — "attempt to repeat fragment of size 0" (lib.rs line 39/108);
* `lookbehindExceedsBuffer` — "attempt to repeat fragment larger than buffer size"
  (lib.rs line 43);
* `lengthOverflow` — `Vec::reserve` capacity overflow, i.e. the new total length
  does not fit in `usize` (lib.rs lines 46 and 82);
* `rangeOutOfBounds` — the asserts "src end is before src start" / "src is out of
  bounds" (lib.rs lines 79-80);
* `indexOverflow` — "attempted to index vec up to maximum usize" (lib.rs line 101). -/
inductive RleError where
  | invalidLookbehind
  | lookbehindExceedsBuffer
  | lengthOverflow
  | rangeOutOfBounds
  | indexOverflow
deriving DecidableEq

/-- Rust `ops::Bound<usize>`, the bounds of a `RangeBounds<usize>` argument. -/
inductive RangeBound where
  | included : Nat → RangeBound
  | excluded : Nat → RangeBound
  | unbounded : RangeBound
deriving DecidableEq

/-- A `RangeBounds<usize>` value: a start bound and an end bound. -/
structure SrcRange where
  startBound : RangeBound
  endBound : RangeBound
deriving DecidableEq

/-- Resolution of the start bound (lib.rs lines 65-71): `Excluded(n)` is
`n.checked_add(1)`, failing when `n` is `usize::MAX`. -/
def resolveStartBound : RangeBound → Except RleError Nat
  | RangeBound.included n => Except.ok n
  | RangeBound.excluded n =>
      if n + 1 > USIZE_MAX then Except.error RleError.indexOverflow
      else Except.ok (n + 1)
  | RangeBound.unbounded => Except.ok 0

/-- Resolution of the end bound (lib.rs lines 72-78): `Included(n)` is
`n.checked_add(1)`, failing when `n` is `usize::MAX`. -/
def resolveEndBound (len : Nat) : RangeBound → Except RleError Nat
  | RangeBound.included n =>
      if n + 1 > USIZE_MAX then Except.error RleError.indexOverflow
      else Except.ok (n + 1)
  | RangeBound.excluded n => Except.ok n
  | RangeBound.unbounded => Except.ok len

/-- `append_from_within` (lib.rs lines 64-94): resolve the two bounds, assert
`src_start <= src_end` and `src_end <= seif.len()`, reserve room for
`count = src_end - src_start` more elements (which fails when the new total
length `seif.len() + count` does not fit in `usize`), then append a copy of
`seif[src_start..src_end]` and set the length to `seif.len() + count`. -/
def append_from_within (seif : List α) (src : SrcRange) :
    Except (RleError × List α) (List α) :=
  match resolveStartBound src.startBound with
  | Except.error e => Except.error (e, seif)
  | Except.ok src_start =>
    match resolveEndBound seif.length src.endBound with
    | Except.error e => Except.error (e, seif)
    | Except.ok src_end =>
      if src_start > src_end then Except.error (RleError.rangeOutOfBounds, seif)
      else if src_end > seif.length then Except.error (RleError.rangeOutOfBounds, seif)
      else
        let count := src_end - src_start
        if seif.length + count > USIZE_MAX then
          Except.error (RleError.lengthOverflow, seif)
        else Except.ok (seif ++ (seif.drop src_start).take count)

/-- The growth loop of `rle_decode` (lib.rs lines 48-56):
`while fill_length > 0` append `min(lookbehind_length, fill_length)` elements
starting at `copy_fragment_start`, then double `lookbehind_length`.
The `fill_size = 0` guard is unreachable from `rle_decode` (which establishes
`lookbehind_length >= 1`, and doubling keeps it positive); it is only there
because the source loop makes no progress in that state. -/
def growthLoop (buffer : List α) (copy_fragment_start lookbehind_length fill_length : Nat) :
    Except (RleError × List α) (List α) :=
  if h0 : fill_length = 0 then Except.ok buffer
  else
    let fill_size := min lookbehind_length fill_length
    if h1 : fill_size = 0 then Except.ok buffer
    else
      match append_from_within buffer
          (SrcRange.mk (RangeBound.included copy_fragment_start)
            (RangeBound.excluded (copy_fragment_start + fill_size))) with
      | Except.error e => Except.error e
      | Except.ok buf =>
          growthLoop buf copy_fragment_start (lookbehind_length * 2) (fill_length - fill_size)
termination_by fill_length
decreasing_by simp only [fill_size] at h1 ⊢; omega

/-- `rle_decode` (lib.rs lines 34-57): check `lookbehind_length != 0`, compute
`copy_fragment_start = buffer.len() - lookbehind_length` via `checked_sub`
(failing when the lookbehind exceeds the buffer), reserve room for
`fill_length` more elements (failing when `buffer.len() + fill_length` does
not fit in `usize`), then run the growth loop. -/
def rle_decode (buffer : List α) (lookbehind_length fill_length : Nat) :
    Except (RleError × List α) (List α) :=
  if lookbehind_length = 0 then Except.error (RleError.invalidLookbehind, buffer)
  else if buffer.length < lookbehind_length then
    Except.error (RleError.lookbehindExceedsBuffer, buffer)
  else
    let copy_fragment_start := buffer.length - lookbehind_length
    if buffer.length + fill_length > USIZE_MAX then
      Except.error (RleError.lengthOverflow, buffer)
    else growthLoop buffer copy_fragment_start lookbehind_length fill_length

/-- Modelled from the spec (sections 8 and 9, "Self-overlap fidelity"): the loop
of the naive reference implementation, which copies one lookbehind-window at a
time — `min(lookbehind_length, fill_length)` elements per step — without ever
doubling the window. -/
def naiveLoop (buffer : List α) (copy_fragment_start lookbehind_length fill_length : Nat) :
    List α :=
  if h0 : fill_length = 0 then buffer
  else
    let fill_size := min lookbehind_length fill_length
    if h1 : fill_size = 0 then buffer
    else
      naiveLoop (buffer ++ (buffer.drop copy_fragment_start).take fill_size)
        copy_fragment_start lookbehind_length (fill_length - fill_size)
termination_by fill_length
decreasing_by simp only [fill_size] at h1 ⊢; omega

/-- Modelled from the spec (section 8, "Self-overlap fidelity"): the naive
reference implementation — same validation as `rle_decode`, then the
non-doubling copy loop. -/
def naive_rle_decode (buffer : List α) (lookbehind_length fill_length : Nat) :
    Except (RleError × List α) (List α) :=
  if lookbehind_length = 0 then Except.error (RleError.invalidLookbehind, buffer)
  else if buffer.length < lookbehind_length then
    Except.error (RleError.lookbehindExceedsBuffer, buffer)
  else if buffer.length + fill_length > USIZE_MAX then
    Except.error (RleError.lengthOverflow, buffer)
  else
    Except.ok (naiveLoop buffer (buffer.length - lookbehind_length)
      lookbehind_length fill_length)

/-- `src` repeated periodically and truncated to `fill` elements: the
mathematical description of the appended data (spec section 4.1). -/
def repeatTrunc (src : List α) (fill : Nat) : List α :=
  if h0 : src.length = 0 then []
  else if h1 : fill ≤ src.length then src.take fill
  else src ++ repeatTrunc src (fill - src.length)
termination_by fill
decreasing_by omega

/-- The arithmetic trace of the growth loop (lib.rs lines 48-56): `true` iff on
every iteration both `copy_fragment_start + fill_size` (the end of the range
passed to `append_from_within`) and the doubled `lookbehind_length * 2` fit in
`usize`. -/
def doublingStaysInBounds (copy_fragment_start lookbehind_length fill_length : Nat) : Bool :=
  if h0 : fill_length = 0 then true
  else
    let fill_size := min lookbehind_length fill_length
    if h1 : fill_size = 0 then true
    else
      decide (copy_fragment_start + fill_size ≤ USIZE_MAX) &&
      decide (lookbehind_length * 2 ≤ USIZE_MAX) &&
      doublingStaysInBounds copy_fragment_start (lookbehind_length * 2)
        (fill_length - fill_size)
termination_by fill_length
decreasing_by simp only [fill_size] at h1 ⊢; omega

theorem repeatTrunc_zero (src : List α) : repeatTrunc src 0 = [] := by
  rw [repeatTrunc]
  by_cases h : src.length = 0 <;> simp [h]

theorem repeatTrunc_of_le (src : List α) (fill : Nat) (hsrc : src.length ≠ 0)
    (h : fill ≤ src.length) : repeatTrunc src fill = src.take fill := by
  rw [repeatTrunc]
  rw [dif_neg hsrc, dif_pos h]

theorem repeatTrunc_of_gt (src : List α) (fill : Nat) (hsrc : src.length ≠ 0)
    (h : src.length < fill) :
    repeatTrunc src fill = src ++ repeatTrunc src (fill - src.length) := by
  rw [repeatTrunc]
  rw [dif_neg hsrc, dif_neg (by omega)]

theorem repeatTrunc_length {src : List α} (hsrc : src.length ≠ 0) :
    ∀ fill, (repeatTrunc src fill).length = fill := by
  intro fill
  induction fill using Nat.strong_induction_on with
  | _ fill ih =>
    by_cases hle : fill ≤ src.length
    · rw [repeatTrunc_of_le _ _ hsrc hle, List.length_take]
      omega
    · rw [repeatTrunc_of_gt _ _ hsrc (by omega), List.length_append,
        ih (fill - src.length) (by omega)]
      omega

theorem repeatTrunc_getElem? {src : List α} (hsrc : src.length ≠ 0) :
    ∀ fill i, i < fill → (repeatTrunc src fill)[i]? = src[i % src.length]? := by
  intro fill
  induction fill using Nat.strong_induction_on with
  | _ fill ih =>
    intro i hi
    by_cases hle : fill ≤ src.length
    · rw [repeatTrunc_of_le _ _ hsrc hle, List.getElem?_take_of_lt hi,
        Nat.mod_eq_of_lt (by omega)]
    · rw [repeatTrunc_of_gt _ _ hsrc (by omega)]
      by_cases hlt : i < src.length
      · rw [List.getElem?_append_left hlt, Nat.mod_eq_of_lt hlt]
      · rw [List.getElem?_append_right (by omega),
          ih (fill - src.length) (by omega) (i - src.length) (by omega),
          ← Nat.mod_eq_sub_mod (by omega)]

theorem repeatTrunc_append_self (src : List α) (hsrc : src.length ≠ 0) (fill : Nat) :
    repeatTrunc (src ++ src) fill = repeatTrunc src fill := by
  have h2 : (src ++ src).length ≠ 0 := by
    rw [List.length_append]; omega
  apply List.ext_getElem?
  intro n
  by_cases hn : n < fill
  · rw [repeatTrunc_getElem? h2 fill n hn, repeatTrunc_getElem? hsrc fill n hn,
      List.length_append]
    have hmod : n % (src.length + src.length) % src.length = n % src.length :=
      Nat.mod_mod_of_dvd n ⟨2, by ring⟩
    by_cases hc : n % (src.length + src.length) < src.length
    · rw [List.getElem?_append_left hc]
      rw [← Nat.mod_eq_of_lt hc, hmod]
    · rw [List.getElem?_append_right (by omega)]
      have hlt : n % (src.length + src.length) < src.length + src.length :=
        Nat.mod_lt _ (by omega)
      have hsub : n % (src.length + src.length) - src.length < src.length := by omega
      rw [← Nat.mod_eq_of_lt hsub, ← Nat.mod_eq_sub_mod (by omega), hmod]
  · rw [List.getElem?_eq_none (by rw [repeatTrunc_length h2]; omega),
      List.getElem?_eq_none (by rw [repeatTrunc_length hsrc]; omega)]

theorem append_from_within_range_ok (buf : List α) (start count : Nat)
    (hend : start + count ≤ buf.length) (hmax : buf.length + count ≤ USIZE_MAX) :
    append_from_within buf
        (SrcRange.mk (RangeBound.included start) (RangeBound.excluded (start + count))) =
      Except.ok (buf ++ (buf.drop start).take count) := by
  simp only [append_from_within, resolveStartBound, resolveEndBound]
  rw [if_neg (by omega), if_neg (by omega)]
  rw [if_neg (by omega), Nat.add_sub_cancel_left]

theorem growthLoop_ok :
    ∀ (fill : Nat) (buf : List α) (start L : Nat), 1 ≤ L → start + L = buf.length →
      buf.length + fill ≤ USIZE_MAX →
      growthLoop buf start L fill = Except.ok (buf ++ repeatTrunc (buf.drop start) fill) := by
  intro fill
  induction fill using Nat.strong_induction_on with
  | _ fill ih =>
    intro buf start L hL hinv hmax
    by_cases h0 : fill = 0
    · subst h0
      rw [growthLoop, dif_pos rfl, repeatTrunc_zero, List.append_nil]
    · have hw : (buf.drop start).length = L := by
        rw [List.length_drop]; omega
      rw [growthLoop, dif_neg h0]
      simp only []
      rw [dif_neg (by omega : ¬ (min L fill = 0))]
      rw [append_from_within_range_ok buf start (min L fill) (by omega) (by omega)]
      simp only []
      by_cases hcase : fill ≤ L
      · rw [Nat.min_eq_right hcase, Nat.sub_self, growthLoop, dif_pos rfl,
          repeatTrunc_of_le _ _ (by omega) (by omega)]
      · rw [Nat.min_eq_left (by omega)]
        have ht : (buf.drop start).take L = buf.drop start := by
          rw [← hw, List.take_length]
        rw [ht]
        have hlen2 : (buf ++ buf.drop start).length = buf.length + L := by
          rw [List.length_append, hw]
        rw [ih (fill - L) (by omega) (buf ++ buf.drop start) start (L * 2) (by omega)
          (by rw [hlen2]; omega) (by rw [hlen2]; omega)]
        have hdrop : (buf ++ buf.drop start).drop start = buf.drop start ++ buf.drop start := by
          rw [List.drop_append_of_le_length (by omega)]
        rw [hdrop, repeatTrunc_append_self (buf.drop start) (by omega) (fill - L),
          repeatTrunc_of_gt (buf.drop start) fill (by omega) (by omega), hw,
          List.append_assoc]

theorem naiveLoop_ok :
    ∀ (fill : Nat) (buf w0 : List α) (start L : Nat), 1 ≤ L → w0.length = L →
      (buf.drop start).take L = w0 → start + L ≤ buf.length →
      naiveLoop buf start L fill = buf ++ repeatTrunc w0 fill := by
  intro fill
  induction fill using Nat.strong_induction_on with
  | _ fill ih =>
    intro buf w0 start L hL hw0 htake hinv
    by_cases h0 : fill = 0
    · subst h0
      rw [naiveLoop, dif_pos rfl, repeatTrunc_zero, List.append_nil]
    · rw [naiveLoop, dif_neg h0]
      simp only []
      rw [dif_neg (by omega : ¬ (min L fill = 0))]
      have happ : (buf.drop start).take (min L fill) = w0.take (min L fill) := by
        rw [← htake, List.take_take]
        congr 1
        omega
      rw [happ]
      by_cases hcase : fill ≤ L
      · rw [Nat.min_eq_right hcase, Nat.sub_self, naiveLoop, dif_pos rfl,
          repeatTrunc_of_le w0 fill (by omega) (by omega)]
      · rw [Nat.min_eq_left (by omega)]
        have ht : w0.take L = w0 := by
          rw [← hw0, List.take_length]
        rw [ht]
        have htake2 : ((buf ++ w0).drop start).take L = w0 := by
          rw [List.drop_append_of_le_length (by omega), List.take_append_eq_append_take, htake]
          have hz : L - (List.drop start buf).length = 0 := by
            rw [List.length_drop]; omega
          rw [hz, List.take_zero, List.append_nil]
        rw [ih (fill - L) (by omega) (buf ++ w0) w0 start L hL hw0 htake2
          (by rw [List.length_append]; omega)]
        rw [repeatTrunc_of_gt w0 fill (by omega) (by omega), hw0, List.append_assoc]

/-- C1 (amended): for every buffer `b`, lookbehind `L` with `1 ≤ L ≤ len b`, and
fill `F` such that the new total length `len b + F` still fits in `usize`,
`rle_decode b L F` succeeds, the length grows by exactly `F`, and for every
`i < F` the element at index `len b + i` equals the original element at index
`(len b - L) + (i % L)`.  `L = len b` is allowed. -/
theorem round_period_correct (b : List α) (L F : Nat) (h1 : 1 ≤ L) (h2 : L ≤ b.length)
    (h3 : b.length + F ≤ USIZE_MAX) :
    ∃ b2, rle_decode b L F = Except.ok b2 ∧ b2.length = b.length + F ∧
      ∀ i, i < F → b2[b.length + i]? = b[b.length - L + i % L]? := by
  have hw : (b.drop (b.length - L)).length = L := by
    rw [List.length_drop]; omega
  refine ⟨b ++ repeatTrunc (b.drop (b.length - L)) F, ?_, ?_, ?_⟩
  · unfold rle_decode
    rw [if_neg (by omega), if_neg (by omega)]
    simp only []
    rw [if_neg (by omega)]
    exact growthLoop_ok F b (b.length - L) L h1 (by omega) h3
  · rw [List.length_append, repeatTrunc_length (by omega) F]
  · intro i hi
    rw [List.getElem?_append_right (by omega)]
    have hsub : b.length + i - b.length = i := by omega
    rw [hsub, repeatTrunc_getElem? (by omega) F i hi, hw, List.getElem?_drop]

/-- C1 counterexample: the claim as stated promises success for *every* `F ≥ 0`,
but with `b = [0]`, `L = 1` (so `1 ≤ L ≤ len b`) and `F = usize::MAX` the new
total length overflows and the call fails with `LengthOverflow` (exactly the
behaviour the crate's own `test_overflow_buf_size` test expects). -/
theorem round_period_unconditional_cex :
    rle_decode ([0] : List Nat) 1 USIZE_MAX =
      Except.error (RleError.lengthOverflow, [0]) := by
  simp [rle_decode, USIZE_MAX]

/-- Witness for C1 at `b = [1,2,3,4,5]`, `L = 3`, `F = 10` (spec concrete
scenario 1). -/
theorem round_period_correct_witness :
    1 ≤ 3 ∧ 3 ≤ ([1,2,3,4,5] : List Nat).length ∧
      ([1,2,3,4,5] : List Nat).length + 10 ≤ USIZE_MAX ∧
      (∃ b2, rle_decode ([1,2,3,4,5] : List Nat) 3 10 = Except.ok b2 ∧
        b2.length = ([1,2,3,4,5] : List Nat).length + 10 ∧
        ∀ i, i < 10 → b2[([1,2,3,4,5] : List Nat).length + i]? =
          ([1,2,3,4,5] : List Nat)[([1,2,3,4,5] : List Nat).length - 3 + i % 3]?) :=
  ⟨by decide, by decide, by decide,
    round_period_correct [1,2,3,4,5] 3 10 (by decide) (by decide) (by decide)⟩

/-- C2: the doubling growth loop of `rle_decode` is observationally identical to
the naive reference implementation that copies one lookbehind-window at a time
without doubling — on every input, valid or not, the two produce the same
result, so in particular identical buffers for every `1 ≤ L ≤ len b`, `F ≥ 0`. -/
theorem doubling_refines_naive (b : List α) (L F : Nat) :
    rle_decode b L F = naive_rle_decode b L F := by
  unfold rle_decode naive_rle_decode
  by_cases h0 : L = 0
  · rw [if_pos h0, if_pos h0]
  rw [if_neg h0, if_neg h0]
  by_cases hgt : b.length < L
  · rw [if_pos hgt, if_pos hgt]
  rw [if_neg hgt, if_neg hgt]
  simp only []
  by_cases hov : b.length + F > USIZE_MAX
  · rw [if_pos hov, if_pos hov]
  rw [if_neg hov, if_neg hov]
  have hw : (b.drop (b.length - L)).length = L := by
    rw [List.length_drop]; omega
  rw [growthLoop_ok F b (b.length - L) L (by omega) (by omega) (by omega)]
  rw [naiveLoop_ok F b (b.drop (b.length - L)) (b.length - L) L (by omega) hw
    (List.take_of_length_le (by omega)) (by omega)]

/-- C3: when `1 ≤ L ≤ len b` but the new total length `len b + F` does not fit
in `usize`, `rle_decode` fails with `LengthOverflow` and the buffer is exactly
as it was before the call (the failure happens before the growth loop runs). -/
theorem overflow_detected_before_mutation (b : List α) (L F : Nat) (h1 : 1 ≤ L)
    (h2 : L ≤ b.length) (h3 : USIZE_MAX < b.length + F) :
    rle_decode b L F = Except.error (RleError.lengthOverflow, b) := by
  unfold rle_decode
  rw [if_neg (by omega), if_neg (by omega)]
  simp only []
  rw [if_pos (by omega)]

/-- Witness for C3 at `b = [5,6]`, `L = 2`, `F = usize::MAX`. -/
theorem overflow_detected_before_mutation_witness :
    1 ≤ 2 ∧ 2 ≤ ([5,6] : List Nat).length ∧
      USIZE_MAX < ([5,6] : List Nat).length + USIZE_MAX ∧
      rle_decode ([5,6] : List Nat) 2 USIZE_MAX =
        Except.error (RleError.lengthOverflow, [5,6]) :=
  ⟨by decide, by decide, by decide,
    overflow_detected_before_mutation [5,6] 2 USIZE_MAX (by decide) (by decide) (by decide)⟩

/-- C4: a zero lookbehind always fails with `InvalidLookbehind`, for every
buffer and every fill length (including `F = 0`), before any other check and
before any mutation: the error is produced even on inputs where the other
preconditions also fail, and it carries the untouched buffer. -/
theorem zero_lookbehind_fails_first (b : List α) (F : Nat) :
    rle_decode b 0 F = Except.error (RleError.invalidLookbehind, b) := by
  unfold rle_decode
  rw [if_pos rfl]

/-- C5: `rle_decode b L F` fails with `LookbehindExceedsBuffer` — carrying the
unchanged buffer — exactly when `L > len b` (so `L = len b` never produces this
error), regardless of `F`. -/
theorem lookbehind_exceeds_fails (b : List α) (L F : Nat) :
    rle_decode b L F = Except.error (RleError.lookbehindExceedsBuffer, b) ↔
      b.length < L := by
  constructor
  · intro h
    by_contra hnot
    push_neg at hnot
    unfold rle_decode at h
    by_cases h0 : L = 0
    · rw [if_pos h0] at h
      simp at h
    · rw [if_neg h0, if_neg (by omega)] at h
      simp only [] at h
      by_cases hov : b.length + F > USIZE_MAX
      · rw [if_pos hov] at h
        simp at h
      · rw [if_neg hov] at h
        rw [growthLoop_ok F b (b.length - L) L (by omega) (by omega) (by omega)] at h
        simp at h
  · intro h
    unfold rle_decode
    rw [if_neg (by omega), if_pos h]

/-- Witness for C5 at `b = [0]`, `L = 2`, `F = 5`. -/
theorem lookbehind_exceeds_fails_witness :
    rle_decode ([0] : List Nat) 2 5 =
      Except.error (RleError.lookbehindExceedsBuffer, [0]) :=
  (lookbehind_exceeds_fails [0] 2 5).mpr (by decide)

/-- C6: a zero fill is a no-op — for every valid lookbehind (`1 ≤ L ≤ len b`,
with `len b` representable as a `usize` as every Rust `Vec` length is),
`rle_decode b L 0` succeeds and returns the buffer unchanged. -/
theorem zero_fill_noop (b : List α) (L : Nat) (h1 : 1 ≤ L) (h2 : L ≤ b.length)
    (hrep : b.length ≤ USIZE_MAX) : rle_decode b L 0 = Except.ok b := by
  unfold rle_decode
  rw [if_neg (by omega), if_neg (by omega)]
  simp only []
  rw [if_neg (by omega), growthLoop, dif_pos rfl]

/-- Witness for C6 at `b = [1,2,3]`, `L = 2`. -/
theorem zero_fill_noop_witness :
    1 ≤ 2 ∧ 2 ≤ ([1,2,3] : List Nat).length ∧ ([1,2,3] : List Nat).length ≤ USIZE_MAX ∧
      rle_decode ([1,2,3] : List Nat) 2 0 = Except.ok [1,2,3] :=
  ⟨by decide, by decide, by decide,
    zero_fill_noop [1,2,3] 2 (by decide) (by decide) (by decide)⟩

theorem resolveStartBound_error (rb : RangeBound) (e : RleError)
    (h : resolveStartBound rb = Except.error e) : e = RleError.indexOverflow := by
  cases rb with
  | included n => simp [resolveStartBound] at h
  | excluded n =>
    simp only [resolveStartBound] at h
    split at h
    · injection h with h
      exact h.symm
    · simp at h
  | unbounded => simp [resolveStartBound] at h

theorem rle_decode_ok (b : List α) (L F : Nat) (h1 : 1 ≤ L) (h2 : L ≤ b.length)
    (h3 : b.length + F ≤ USIZE_MAX) :
    rle_decode b L F = Except.ok (b ++ repeatTrunc (b.drop (b.length - L)) F) := by
  unfold rle_decode
  rw [if_neg (by omega), if_neg (by omega)]
  simp only []
  rw [if_neg (by omega)]
  exact growthLoop_ok F b (b.length - L) L h1 (by omega) h3

/-- C7 (amended): for a range resolving to `s` and `e`: if `s ≤ e ≤ len b` *and
the new total length `len b + (e - s)` fits in `usize`*, the append succeeds,
the length grows by exactly `e - s`, and the appended elements are the slice
`b[s..e]` as it stood before the call; if `e < s` or `e > len b` it fails with
`RangeOutOfBounds`; if resolving a bound overflows `usize` it fails with
`IndexOverflow`.  In every failure case the buffer is unchanged. -/
theorem append_from_within_contract (b : List α) (r : SrcRange) :
    (∀ s e, resolveStartBound r.startBound = Except.ok s →
        resolveEndBound b.length r.endBound = Except.ok e →
        (s ≤ e → e ≤ b.length → b.length + (e - s) ≤ USIZE_MAX →
            append_from_within b r = Except.ok (b ++ (b.drop s).take (e - s)) ∧
            (b ++ (b.drop s).take (e - s)).length = b.length + (e - s)) ∧
        ((e < s ∨ b.length < e) →
            append_from_within b r = Except.error (RleError.rangeOutOfBounds, b))) ∧
    ((resolveStartBound r.startBound = Except.error RleError.indexOverflow ∨
        resolveEndBound b.length r.endBound = Except.error RleError.indexOverflow) →
      append_from_within b r = Except.error (RleError.indexOverflow, b)) := by
  constructor
  · intro s e hs he
    constructor
    · intro h1 h2 h3
      constructor
      · unfold append_from_within
        simp only [hs, he]
        rw [if_neg (by omega), if_neg (by omega), if_neg (by omega)]
      · rw [List.length_append, List.length_take, List.length_drop]
        omega
    · intro hbad
      unfold append_from_within
      simp only [hs, he]
      by_cases hss : s > e
      · rw [if_pos hss]
      · rw [if_neg hss, if_pos (by omega)]
  · intro hbad
    unfold append_from_within
    rcases hbad with hb | hb
    · simp only [hb]
    · cases hstart : resolveStartBound r.startBound with
      | error e0 =>
        rw [resolveStartBound_error r.startBound e0 hstart]
      | ok s0 => simp only [hstart, hb]

/-- C7 counterexample: the claim as stated promises success whenever
`start ≤ end ≤ len(b)`, with no condition on the total length.  For a buffer of
`usize::MAX` zero-sized elements (a legal Rust `Vec<()>`), appending the range
`0..usize::MAX` satisfies `start ≤ end ≤ len(b)` yet the internal reserve
arithmetic `len + count` overflows `usize`, so the call fails. -/
theorem append_from_within_contract_cex :
    append_from_within (List.replicate USIZE_MAX ())
        (SrcRange.mk (RangeBound.included 0) (RangeBound.excluded USIZE_MAX)) =
      Except.error (RleError.lengthOverflow, List.replicate USIZE_MAX ()) := by
  have hpos : 0 < USIZE_MAX := by decide
  unfold append_from_within
  simp only [resolveStartBound, resolveEndBound, List.length_replicate]
  rw [if_neg (by omega), if_neg (by omega), if_pos (by omega)]

/-- Witness for C7 at `b = [1,2,3]`, range `1..3`. -/
theorem append_from_within_contract_witness :
    append_from_within ([1,2,3] : List Nat)
        (SrcRange.mk (RangeBound.included 1) (RangeBound.excluded 3)) =
      Except.ok [1,2,3,2,3] ∧ ([1,2,3,2,3] : List Nat).length = 3 + 2 :=
  ((append_from_within_contract [1,2,3]
      (SrcRange.mk (RangeBound.included 1) (RangeBound.excluded 3))).1 1 3 rfl rfl).1
    (by decide) (by decide) (by decide)

/-- C8: under RepeatFill's own preconditions (`1 ≤ L ≤ len b` and no length
overflow), the defensive assertions of the internal primitive never fire: on
every iteration of the growth loop, the range handed to `append_from_within`
passes its bounds checks, so `rle_decode` can never return the assertion
failures `RangeOutOfBounds` or `IndexOverflow`. -/
theorem internal_asserts_unreachable (b : List α) (L F : Nat) (h1 : 1 ≤ L)
    (h2 : L ≤ b.length) (h3 : b.length + F ≤ USIZE_MAX) :
    (∀ s, rle_decode b L F ≠ Except.error (RleError.rangeOutOfBounds, s)) ∧
    (∀ s, rle_decode b L F ≠ Except.error (RleError.indexOverflow, s)) := by
  rw [rle_decode_ok b L F h1 h2 h3]
  constructor <;> intro s <;> simp

/-- Witness for C8 at `b = [7]`, `L = 1`, `F = 4`, state `[7]`. -/
theorem internal_asserts_unreachable_witness :
    1 ≤ 1 ∧ 1 ≤ ([7] : List Nat).length ∧ ([7] : List Nat).length + 4 ≤ USIZE_MAX ∧
      rle_decode ([7] : List Nat) 1 4 ≠ Except.error (RleError.rangeOutOfBounds, [7]) :=
  ⟨by decide, by decide, by decide,
    (internal_asserts_unreachable [7] 1 4 (by decide) (by decide) (by decide)).1 [7]⟩

/-- C9: on any successful `rle_decode` call with a valid lookbehind, every
element at an index below the original length is unchanged — the operation
only writes at or past the original length. -/
theorem original_elements_unchanged (b b2 : List α) (L F : Nat) (h1 : 1 ≤ L)
    (h2 : L ≤ b.length) (hok : rle_decode b L F = Except.ok b2) :
    ∀ i, i < b.length → b2[i]? = b[i]? := by
  intro i hi
  by_cases hov : b.length + F ≤ USIZE_MAX
  · rw [rle_decode_ok b L F h1 h2 hov] at hok
    have hb2 : b2 = b ++ repeatTrunc (b.drop (b.length - L)) F := by
      injection hok with h
      exact h.symm
    rw [hb2, List.getElem?_append_left hi]
  · exfalso
    unfold rle_decode at hok
    rw [if_neg (by omega), if_neg (by omega)] at hok
    simp only [] at hok
    rw [if_pos (by omega)] at hok
    simp at hok

/-- Witness for C9 at `b = [1,2]`, `L = 1`, `F = 3`, index `0`. -/
theorem original_elements_unchanged_witness :
    ([1,2,2,2,2] : List Nat)[0]? = ([1,2] : List Nat)[0]? :=
  original_elements_unchanged [1,2] [1,2,2,2,2] 1 3 (by decide) (by decide)
    (by simp [rle_decode, growthLoop, append_from_within, resolveStartBound,
      resolveEndBound, USIZE_MAX]) 0 (by decide)

theorem doublingStaysInBounds_ok :
    ∀ (fill start L : Nat), 1 ≤ L → start + L + fill ≤ USIZE_MAX / 2 →
      doublingStaysInBounds start L fill = true := by
  intro fill
  induction fill using Nat.strong_induction_on with
  | _ fill ih =>
    intro start L hL hbound
    by_cases h0 : fill = 0
    · subst h0
      rw [doublingStaysInBounds, dif_pos rfl]
    · rw [doublingStaysInBounds, dif_neg h0]
      simp only []
      rw [dif_neg (by omega : ¬ (min L fill = 0))]
      rw [decide_eq_true (by omega : start + min L fill ≤ USIZE_MAX),
        decide_eq_true (by omega : L * 2 ≤ USIZE_MAX)]
      simp only [Bool.true_and]
      by_cases hcase : fill ≤ L
      · rw [Nat.min_eq_right hcase, Nat.sub_self, doublingStaysInBounds, dif_pos rfl]
      · rw [Nat.min_eq_left (by omega)]
        exact ih (fill - L) (by omega) start (L * 2) (by omega) (by omega)

/-- C10: when `1 ≤ L ≤ len b` and `len b + F ≤ usize::MAX / 2`, every
intermediate value of the doubled `lookbehind_length` and every range end
`copy_fragment_start + fill_size` computed by the growth loop fits in `usize`
— the doubling update never overflows under this bound. -/
theorem doubling_arithmetic_in_bounds (b : List α) (L F : Nat) (h1 : 1 ≤ L)
    (h2 : L ≤ b.length) (h3 : b.length + F ≤ USIZE_MAX / 2) :
    doublingStaysInBounds (b.length - L) L F = true :=
  doublingStaysInBounds_ok F (b.length - L) L h1 (by omega)

/-- Witness for C10 at `b = [1,2,3,4,5]`, `L = 3`, `F = 10`. -/
theorem doubling_arithmetic_in_bounds_witness :
    1 ≤ 3 ∧ 3 ≤ ([1,2,3,4,5] : List Nat).length ∧
      ([1,2,3,4,5] : List Nat).length + 10 ≤ USIZE_MAX / 2 ∧
      doublingStaysInBounds (([1,2,3,4,5] : List Nat).length - 3) 3 10 = true :=
  ⟨by decide, by decide, by decide,
    doubling_arithmetic_in_bounds [1,2,3,4,5] 3 10 (by decide) (by decide) (by decide)⟩
